import Mathlib

/-!
Verification of the daily-news-summarizer pipeline (src/news_summarizer.py).

The Python source is shallowly embedded: strings become `List Char` (Python
`len`/slicing count code points, as `List.length`/`List.take` do), network
responses become explicit oracle records, and every HTTP request that a
function issues is returned as part of its result so that request traces can
be reasoned about.  Machine-level concerns (sockets, JSON parsing) are out of
scope; the oracles deliver already-parsed bodies exactly as the code reads
them.
-/

set_option maxHeartbeats 1000000
set_option maxRecDepth 8192

/-! ## Text normalizer (`clean_text`, lines 157-169)

`clean_text` performs, in order:
1. `re.sub(r'<[^>]+>', '', text)`   - remove markup tags,
2. `html.unescape(text)`            - decode HTML entities,
3. `re.sub(r'\s+', ' ', text).strip()` - collapse whitespace runs, trim ends.
-/

/-- Whitespace test for `re`'s `\s` and `str.strip`, restricted to the ASCII
whitespace characters (space, tab, newline, carriage return, vertical tab,
form feed). -/
def isWs (c : Char) : Bool :=
  decide (c = ' ' ∨ c = '\t' ∨ c = '\n' ∨ c = '\r' ∨ c = Char.ofNat 11 ∨ c = Char.ofNat 12)

/-- Scan for the first '>' in `l`; on success return the suffix after it.
This is the tail of a `<[^>]+>` match: the regex's greedy `[^>]+` stops at
the first '>' and the match consumes it. -/
def tagRest : List Char → Option (List Char)
  | [] => none
  | c :: rest => if c = '>' then some rest else tagRest rest

/-- Given the characters after a '<', decide whether `<[^>]+>` matches here:
there must be at least one non-'>' character and then a '>'.  On success
return the characters after the match. -/
def tagSplit : List Char → Option (List Char)
  | [] => none
  | c :: rest => if c = '>' then none else tagRest rest

theorem tagRest_length : ∀ (l t : List Char), tagRest l = some t → t.length < l.length := by
  intro l
  induction l with
  | nil => intro t h; simp [tagRest] at h
  | cons c rest ih =>
    intro t h
    simp only [tagRest] at h
    split at h
    · cases h; simp
    · exact Nat.lt_trans (ih t h) (Nat.lt_succ_self _)

theorem tagSplit_length (l t : List Char) (h : tagSplit l = some t) : t.length < l.length := by
  cases l with
  | nil => simp [tagSplit] at h
  | cons c rest =>
    simp only [tagSplit] at h
    split at h
    · cases h
    · exact Nat.lt_trans (tagRest_length rest t h) (Nat.lt_succ_self _)

/-- `re.sub(r'<[^>]+>', '', text)`: left-to-right, non-overlapping removal of
tag-shaped spans.  At a '<', if `<[^>]+>` matches, the whole match is dropped
and scanning resumes after it; otherwise the '<' is kept and scanning resumes
at the next character. -/
def stripTags : List Char → List Char
  | [] => []
  | c :: rest =>
    if c = '<' then
      match h : tagSplit rest with
      | some tail => stripTags tail
      | none => c :: stripTags rest
    else c :: stripTags rest
termination_by l => l.length
decreasing_by
  · simp only [List.length_cons]
    exact Nat.lt_succ_of_lt (tagSplit_length rest tail h)
  · simp
  · simp

/-- Recognize one HTML character-entity reference at the head of `l` (the
characters after a '&').  Models `html.unescape` on the standard predefined
entities `&amp; &lt; &gt; &quot; &apos;`; on success returns the decoded
character and the suffix after the reference. -/
def entSplit (l : List Char) : Option (Char × List Char) :=
  if l.take 4 = ['a', 'm', 'p', ';'] then some ('&', l.drop 4)
  else if l.take 3 = ['l', 't', ';'] then some ('<', l.drop 3)
  else if l.take 3 = ['g', 't', ';'] then some ('>', l.drop 3)
  else if l.take 5 = ['q', 'u', 'o', 't', ';'] then some ('"', l.drop 5)
  else if l.take 5 = ['a', 'p', 'o', 's', ';'] then some (Char.ofNat 39, l.drop 5)
  else none

theorem take_drop_length_lt (l : List Char) (k : Nat) (p : List Char)
    (hp : l.take k = p) (hplen : p.length = k) (hk : 0 < k) :
    (l.drop k).length < l.length := by
  have h1 : (l.take k).length = k := by rw [hp, hplen]
  have h2 : (l.take k).length = min k l.length := by simp
  simp only [List.length_drop]
  omega

theorem entSplit_length (l : List Char) (d : Char) (t : List Char)
    (h : entSplit l = some (d, t)) : t.length < l.length := by
  simp only [entSplit] at h
  split at h
  next hc => cases h; exact take_drop_length_lt l 4 _ hc (by decide) (by decide)
  next =>
    split at h
    next hc => cases h; exact take_drop_length_lt l 3 _ hc (by decide) (by decide)
    next =>
      split at h
      next hc => cases h; exact take_drop_length_lt l 3 _ hc (by decide) (by decide)
      next =>
        split at h
        next hc => cases h; exact take_drop_length_lt l 5 _ hc (by decide) (by decide)
        next =>
          split at h
          next hc => cases h; exact take_drop_length_lt l 5 _ hc (by decide) (by decide)
          next => cases h

/-- `html.unescape`, modelled on the standard predefined character entities:
at each '&' try to decode one entity reference via `entSplit`; other
characters pass through unchanged. -/
def unescape : List Char → List Char
  | [] => []
  | c :: rest =>
    if c = '&' then
      match h : entSplit rest with
      | some (d, tail) => d :: unescape tail
      | none => '&' :: unescape rest
    else c :: unescape rest
termination_by l => l.length
decreasing_by
  · simp only [List.length_cons]
    exact Nat.lt_succ_of_lt (entSplit_length rest d tail h)
  · simp
  · simp

/-- `re.sub(r'\s+', ' ', text)`: replace every maximal run of whitespace with
a single space.  The flag records whether the previous character was part of
a whitespace run whose replacement space was already emitted. -/
def collapseAux : Bool → List Char → List Char
  | _, [] => []
  | inRun, c :: rest =>
    if isWs c then
      if inRun then collapseAux true rest else ' ' :: collapseAux true rest
    else c :: collapseAux false rest

/-- `re.sub(r'\s+', ' ', text)` on a whole string. -/
def collapseWS (l : List Char) : List Char := collapseAux false l

/-- Python `str.strip()`: drop leading and trailing whitespace. -/
def pyStrip (l : List Char) : List Char :=
  ((l.dropWhile isWs).reverse.dropWhile isWs).reverse

/-- `clean_text` (lines 157-169): strip `<[^>]+>` spans, decode HTML
entities, collapse whitespace runs to single spaces and trim the ends. -/
def clean_text (l : List Char) : List Char :=
  pyStrip (collapseWS (unescape (stripTags l)))

theorem stripTags_nil : stripTags [] = [] := by simp [stripTags]

theorem stripTags_cons_ne (c : Char) (rest : List Char) (hc : c ≠ '<') :
    stripTags (c :: rest) = c :: stripTags rest := by
  rw [stripTags]
  simp [hc]

theorem stripTags_lt_some (rest tail : List Char) (h : tagSplit rest = some tail) :
    stripTags ('<' :: rest) = stripTags tail := by
  rw [stripTags, if_pos rfl]
  split
  next t2 heq =>
    rw [h] at heq
    injection heq with h2
    rw [h2]
  next heq =>
    rw [h] at heq
    exact Option.noConfusion heq

theorem stripTags_lt_none (rest : List Char) (h : tagSplit rest = none) :
    stripTags ('<' :: rest) = '<' :: stripTags rest := by
  rw [stripTags, if_pos rfl]
  split
  next t2 heq =>
    rw [h] at heq
    exact Option.noConfusion heq
  next heq => rfl

theorem unescape_nil : unescape [] = [] := by simp [unescape]

theorem unescape_cons_ne (c : Char) (rest : List Char) (hc : c ≠ '&') :
    unescape (c :: rest) = c :: unescape rest := by
  rw [unescape]
  simp [hc]

theorem unescape_amp_some (rest : List Char) (d : Char) (tail : List Char)
    (h : entSplit rest = some (d, tail)) :
    unescape ('&' :: rest) = d :: unescape tail := by
  rw [unescape, if_pos rfl]
  split
  next d2 t2 heq =>
    rw [h] at heq
    injection heq with h2
    injection h2 with h3 h4
    rw [h3, h4]
  next heq =>
    rw [h] at heq
    exact Option.noConfusion heq

theorem unescape_amp_none (rest : List Char) (h : entSplit rest = none) :
    unescape ('&' :: rest) = '&' :: unescape rest := by
  rw [unescape, if_pos rfl]
  split
  next d2 t2 heq =>
    rw [h] at heq
    exact Option.noConfusion heq
  next heq => rfl

theorem tagRest_sublist : ∀ (l t : List Char), tagRest l = some t → List.Sublist t l := by
  intro l
  induction l with
  | nil => intro t h; simp [tagRest] at h
  | cons c rest ih =>
    intro t h
    simp only [tagRest] at h
    split at h
    · injection h with h2
      rw [← h2]
      exact List.sublist_cons_self c rest
    · exact List.Sublist.cons c (ih t h)

theorem tagSplit_sublist (l t : List Char) (h : tagSplit l = some t) : List.Sublist t l := by
  cases l with
  | nil => simp [tagSplit] at h
  | cons c rest =>
    simp only [tagSplit] at h
    split at h
    · exact Option.noConfusion h
    · exact List.Sublist.cons c (tagRest_sublist rest t h)

theorem stripTags_sublist (l : List Char) : List.Sublist (stripTags l) l := by
  induction l using stripTags.induct with
  | case1 => rw [stripTags_nil]
  | case2 rest tail h ih =>
    rw [stripTags_lt_some rest tail h]
    exact List.Sublist.cons _ (ih.trans (tagSplit_sublist rest tail h))
  | case3 rest h ih =>
    rw [stripTags_lt_none rest h]
    exact List.Sublist.cons₂ _ ih
  | case4 c rest hc ih =>
    rw [stripTags_cons_ne c rest hc]
    exact List.Sublist.cons₂ _ ih

theorem stripTags_subset {l : List Char} {x : Char} (h : x ∈ stripTags l) : x ∈ l :=
  (stripTags_sublist l).subset h

theorem stripTags_of_no_lt : ∀ (l : List Char), '<' ∉ l → stripTags l = l := by
  intro l
  induction l with
  | nil => intro _; exact stripTags_nil
  | cons c rest ih =>
    intro h
    have hc : c ≠ '<' := by
      intro hc
      exact h (hc ▸ List.mem_cons_self c rest)
    rw [stripTags_cons_ne c rest hc, ih (fun hm => h (List.mem_cons_of_mem c hm))]

theorem unescape_of_no_amp : ∀ (l : List Char), '&' ∉ l → unescape l = l := by
  intro l
  induction l with
  | nil => intro _; exact unescape_nil
  | cons c rest ih =>
    intro h
    have hc : c ≠ '&' := by
      intro hc
      exact h (hc ▸ List.mem_cons_self c rest)
    rw [unescape_cons_ne c rest hc, ih (fun hm => h (List.mem_cons_of_mem c hm))]

/-- The shape invariant of tag-stripped text at a '<': either the very next
character is '>' (so `<[^>]+>` cannot match there, the body being empty) or
no '>' occurs later at all. -/
def ltCondB (l : List Char) : Bool :=
  if l.head? = some '>' then true else !(decide ('>' ∈ l))

/-- Every '<' in the string satisfies `ltCondB` on its tail; such a string
contains no `<[^>]+>` match. -/
def goodLtB : List Char → Bool
  | [] => true
  | c :: rest => ((if c = '<' then ltCondB rest else true) && goodLtB rest)

theorem ltCondB_iff (l : List Char) :
    ltCondB l = true ↔ (l.head? = some '>' ∨ '>' ∉ l) := by
  unfold ltCondB
  split
  next h => simp [h]
  next h => simp [h]

theorem goodLtB_cons (c : Char) (l : List Char) :
    goodLtB (c :: l) = ((if c = '<' then ltCondB l else true) && goodLtB l) := rfl

theorem goodLtB_tail {c : Char} {l : List Char} (h : goodLtB (c :: l) = true) :
    goodLtB l = true := by
  rw [goodLtB_cons, Bool.and_eq_true] at h
  exact h.2

theorem goodLtB_suffix : ∀ (a l : List Char), goodLtB (a ++ l) = true → goodLtB l = true := by
  intro a
  induction a with
  | nil => intro l h; exact h
  | cons x a ih => intro l h; exact ih l (goodLtB_tail h)

theorem ltCondB_of_append {l a : List Char} (h : ltCondB (l ++ a) = true) :
    ltCondB l = true := by
  rw [ltCondB_iff] at h ⊢
  cases l with
  | nil => right; simp
  | cons x r =>
    rcases h with h | h
    · left
      simpa using h
    · right
      intro hm
      apply h
      rw [List.cons_append]
      rcases List.mem_cons.mp hm with h1 | h1
      · exact List.mem_cons.mpr (Or.inl h1)
      · exact List.mem_cons_of_mem x (List.mem_append_left a h1)

theorem goodLtB_prefix : ∀ (l a : List Char), goodLtB (l ++ a) = true → goodLtB l = true := by
  intro l
  induction l with
  | nil => intro a _; rfl
  | cons c r ih =>
    intro a h
    rw [List.cons_append, goodLtB_cons, Bool.and_eq_true] at h
    rw [goodLtB_cons, Bool.and_eq_true]
    refine ⟨?_, ih a h.2⟩
    rcases h with ⟨h1, _⟩
    split
    next =>
      rw [if_pos (by assumption)] at h1
      exact ltCondB_of_append h1
    next => rfl

theorem tagRest_eq_none : ∀ (l : List Char), tagRest l = none ↔ '>' ∉ l := by
  intro l
  induction l with
  | nil => simp [tagRest]
  | cons c rest ih =>
    simp only [tagRest]
    split
    next h =>
      subst h
      simp
    next h =>
      rw [ih]
      constructor
      · intro hn hm
        rcases List.mem_cons.mp hm with h1 | h1
        · exact h h1.symm
        · exact hn h1
      · intro hn hm
        exact hn (List.mem_cons_of_mem c hm)

theorem tagSplit_none_cases (l : List Char) (h : tagSplit l = none) :
    l = [] ∨ l.head? = some '>' ∨ '>' ∉ l := by
  cases l with
  | nil => exact Or.inl rfl
  | cons c rest =>
    simp only [tagSplit] at h
    split at h
    next hc =>
      subst hc
      exact Or.inr (Or.inl rfl)
    next hc =>
      refine Or.inr (Or.inr ?_)
      intro hm
      rcases List.mem_cons.mp hm with h1 | h1
      · exact hc h1.symm
      · exact (tagRest_eq_none rest).mp h h1

theorem tagSplit_eq_none (l : List Char) (hcond : l.head? = some '>' ∨ '>' ∉ l) :
    tagSplit l = none := by
  cases l with
  | nil => rfl
  | cons c rest =>
    simp only [tagSplit]
    rcases hcond with h | h
    · simp only [List.head?_cons, Option.some.injEq] at h
      rw [if_pos h]
    · have hc : ¬c = '>' := fun hc => h (List.mem_cons.mpr (Or.inl hc.symm))
      rw [if_neg hc]
      exact (tagRest_eq_none rest).mpr (fun hm => h (List.mem_cons_of_mem c hm))

theorem goodLtB_fixpoint : ∀ (l : List Char), goodLtB l = true → stripTags l = l := by
  intro l
  induction l with
  | nil => intro _; exact stripTags_nil
  | cons c rest ih =>
    intro h
    rw [goodLtB_cons, Bool.and_eq_true] at h
    by_cases hc : c = '<'
    · subst hc
      have hcond := (ltCondB_iff rest).mp (by rw [if_pos rfl] at h; exact h.1)
      rw [stripTags_lt_none rest (tagSplit_eq_none rest hcond), ih h.2]
    · rw [stripTags_cons_ne c rest hc, ih h.2]

theorem stripTags_goodLtB (l : List Char) : goodLtB (stripTags l) = true := by
  induction l using stripTags.induct with
  | case1 => rw [stripTags_nil]; rfl
  | case2 rest tail h ih => rw [stripTags_lt_some rest tail h]; exact ih
  | case3 rest h ih =>
    rw [stripTags_lt_none rest h, goodLtB_cons, Bool.and_eq_true, if_pos rfl]
    refine ⟨?_, ih⟩
    rw [ltCondB_iff]
    rcases tagSplit_none_cases rest h with h1 | h1 | h1
    · subst h1
      rw [stripTags_nil]
      exact Or.inr (by simp)
    · cases rest with
      | nil => simp at h1
      | cons x r =>
        simp only [List.head?_cons, Option.some.injEq] at h1
        subst h1
        rw [stripTags_cons_ne '>' r (by decide)]
        exact Or.inl rfl
    · exact Or.inr (fun hm => h1 (stripTags_subset hm))
  | case4 c rest hc ih =>
    rw [stripTags_cons_ne c rest hc, goodLtB_cons, Bool.and_eq_true, if_neg hc]
    exact ⟨rfl, ih⟩

theorem collapseAux_nil (b : Bool) : collapseAux b [] = [] := by cases b <;> rfl

theorem collapseAux_ws_true (c : Char) (rest : List Char) (hc : isWs c = true) :
    collapseAux true (c :: rest) = collapseAux true rest := by
  simp [collapseAux, hc]

theorem collapseAux_ws_false (c : Char) (rest : List Char) (hc : isWs c = true) :
    collapseAux false (c :: rest) = ' ' :: collapseAux true rest := by
  simp [collapseAux, hc]

theorem collapseAux_not_ws (b : Bool) (c : Char) (rest : List Char) (hc : isWs c = false) :
    collapseAux b (c :: rest) = c :: collapseAux false rest := by
  simp [collapseAux, hc]

theorem collapseAux_mem : ∀ (l : List Char) (b : Bool) (x : Char),
    x ∈ collapseAux b l → x = ' ' ∨ x ∈ l := by
  intro l
  induction l with
  | nil => intro b x h; rw [collapseAux_nil] at h; cases h
  | cons c rest ih =>
    intro b x h
    by_cases hws : isWs c = true
    · cases b with
      | true =>
        rw [collapseAux_ws_true c rest hws] at h
        rcases ih true x h with h1 | h1
        · exact Or.inl h1
        · exact Or.inr (List.mem_cons_of_mem c h1)
      | false =>
        rw [collapseAux_ws_false c rest hws] at h
        rcases List.mem_cons.mp h with h1 | h1
        · exact Or.inl h1
        · rcases ih true x h1 with h2 | h2
          · exact Or.inl h2
          · exact Or.inr (List.mem_cons_of_mem c h2)
    · rw [collapseAux_not_ws b c rest (by simpa using hws)] at h
      rcases List.mem_cons.mp h with h1 | h1
      · exact Or.inr (List.mem_cons.mpr (Or.inl h1))
      · rcases ih false x h1 with h2 | h2
        · exact Or.inl h2
        · exact Or.inr (List.mem_cons_of_mem c h2)

theorem collapseAux_goodLtB : ∀ (l : List Char), goodLtB l = true →
    ∀ b, goodLtB (collapseAux b l) = true := by
  intro l
  induction l with
  | nil => intro _ b; rw [collapseAux_nil]; rfl
  | cons c rest ih =>
    intro h b
    rw [goodLtB_cons, Bool.and_eq_true] at h
    by_cases hws : isWs c = true
    · have hihtrue := ih h.2 true
      cases b with
      | true => rw [collapseAux_ws_true c rest hws]; exact hihtrue
      | false =>
        rw [collapseAux_ws_false c rest hws, goodLtB_cons, Bool.and_eq_true,
          if_neg (by decide : ¬(' ' = '<'))]
        exact ⟨rfl, hihtrue⟩
    · have hws2 : isWs c = false := by simpa using hws
      rw [collapseAux_not_ws b c rest hws2, goodLtB_cons, Bool.and_eq_true]
      refine ⟨?_, ih h.2 false⟩
      by_cases hc : c = '<'
      · rw [if_pos hc]
        rw [if_pos hc] at h
        rcases (ltCondB_iff rest).mp h.1 with h1 | h1
        · cases rest with
          | nil => rw [collapseAux_nil]; rfl
          | cons x r =>
            simp only [List.head?_cons, Option.some.injEq] at h1
            subst h1
            rw [collapseAux_not_ws false '>' r (by decide), ltCondB_iff]
            exact Or.inl rfl
        · rw [ltCondB_iff]
          refine Or.inr ?_
          intro hm
          rcases collapseAux_mem rest false '>' hm with h2 | h2
          · exact absurd h2 (by decide)
          · exact h1 h2
      · rw [if_neg hc]

/-- The head of the list, if any, is not whitespace. -/
def headWsFree (l : List Char) : Bool :=
  match l.head? with
  | some c => !(isWs c)
  | none => true

/-- Fully collapsed whitespace: every whitespace character is a single space
that is not followed by further whitespace. -/
def wsNormB : List Char → Bool
  | [] => true
  | c :: rest => ((!(isWs c)) || (decide (c = ' ') && headWsFree rest)) && wsNormB rest

theorem headWsFree_cons (c : Char) (l : List Char) :
    headWsFree (c :: l) = !(isWs c) := rfl

theorem wsNormB_cons (c : Char) (l : List Char) :
    wsNormB (c :: l) = (((!(isWs c)) || (decide (c = ' ') && headWsFree l)) && wsNormB l) := rfl

theorem headWsFree_of_append (l a : List Char) (h : headWsFree (l ++ a) = true) :
    headWsFree l = true := by
  cases l with
  | nil => rfl
  | cons x r => exact h

theorem wsNormB_suffix : ∀ (a l : List Char), wsNormB (a ++ l) = true → wsNormB l = true := by
  intro a
  induction a with
  | nil => intro l h; exact h
  | cons x a ih =>
    intro l h
    rw [List.cons_append, wsNormB_cons, Bool.and_eq_true] at h
    exact ih l h.2

theorem wsNormB_prefix : ∀ (l a : List Char), wsNormB (l ++ a) = true → wsNormB l = true := by
  intro l
  induction l with
  | nil => intro a _; rfl
  | cons c r ih =>
    intro a h
    rw [List.cons_append, wsNormB_cons, Bool.and_eq_true] at h
    rw [wsNormB_cons, Bool.and_eq_true]
    refine ⟨?_, ih a h.2⟩
    rcases h with ⟨h1, _⟩
    rw [Bool.or_eq_true] at h1 ⊢
    rcases h1 with h1 | h1
    · exact Or.inl h1
    · rw [Bool.and_eq_true] at h1
      exact Or.inr (by rw [Bool.and_eq_true]; exact ⟨h1.1, headWsFree_of_append r a h1.2⟩)

theorem collapseAux_wsNormB : ∀ (l : List Char),
    (∀ b, wsNormB (collapseAux b l) = true) ∧ headWsFree (collapseAux true l) = true := by
  intro l
  induction l with
  | nil => exact ⟨fun b => by rw [collapseAux_nil]; rfl, by rw [collapseAux_nil]; rfl⟩
  | cons c rest ih =>
    by_cases hws : isWs c = true
    · constructor
      · intro b
        cases b with
        | true => rw [collapseAux_ws_true c rest hws]; exact ih.1 true
        | false =>
          rw [collapseAux_ws_false c rest hws, wsNormB_cons, Bool.and_eq_true]
          refine ⟨?_, ih.1 true⟩
          rw [Bool.or_eq_true, Bool.and_eq_true]
          exact Or.inr ⟨by decide, ih.2⟩
      · rw [collapseAux_ws_true c rest hws]
        exact ih.2
    · have hws2 : isWs c = false := by simpa using hws
      constructor
      · intro b
        rw [collapseAux_not_ws b c rest hws2, wsNormB_cons, Bool.and_eq_true]
        exact ⟨by rw [Bool.or_eq_true]; exact Or.inl (by rw [hws2]; rfl), ih.1 false⟩
      · rw [collapseAux_not_ws true c rest hws2, headWsFree_cons, hws2]
        rfl

theorem wsNormB_fixpoint : ∀ (l : List Char), wsNormB l = true →
    collapseAux false l = l ∧ (headWsFree l = true → collapseAux true l = l) := by
  intro l
  induction l with
  | nil => exact fun _ => ⟨rfl, fun _ => rfl⟩
  | cons c rest ih =>
    intro h
    rw [wsNormB_cons, Bool.and_eq_true] at h
    obtain ⟨h1, h2⟩ := h
    by_cases hws : isWs c = true
    · rw [Bool.or_eq_true] at h1
      rcases h1 with h1 | h1
      · rw [hws] at h1; exact absurd h1 (by decide)
      · rw [Bool.and_eq_true, decide_eq_true_eq] at h1
        obtain ⟨hsp, hhead⟩ := h1
        subst hsp
        constructor
        · rw [collapseAux_ws_false ' ' rest hws, (ih h2).2 hhead]
        · intro hhf
          rw [headWsFree_cons, hws] at hhf
          exact absurd hhf (by decide)
    · have hws2 : isWs c = false := by simpa using hws
      constructor
      · rw [collapseAux_not_ws false c rest hws2, (ih h2).1]
      · intro _
        rw [collapseAux_not_ws true c rest hws2, (ih h2).1]

theorem dropWhile_head?_not (p : Char → Bool) : ∀ (l : List Char) (c : Char),
    (l.dropWhile p).head? = some c → p c = false := by
  intro l
  induction l with
  | nil => intro c h; simp at h
  | cons x r ih =>
    intro c h
    rw [List.dropWhile_cons] at h
    split at h
    · exact ih c h
    next hpx =>
      simp only [List.head?_cons, Option.some.injEq] at h
      subst h
      simpa using hpx

theorem dropWhile_eq_self_of_head (p : Char → Bool) (l : List Char)
    (h : ∀ c, l.head? = some c → p c = false) : l.dropWhile p = l := by
  cases l with
  | nil => rfl
  | cons x r => simp [List.dropWhile_cons, h x rfl]

theorem dropWhile_suffix_decomp (p : Char → Bool) (l : List Char) :
    ∃ a, l = a ++ l.dropWhile p :=
  ⟨l.takeWhile p, (List.takeWhile_append_dropWhile p l).symm⟩

theorem revDrop_decomp (p : Char → Bool) (u : List Char) :
    ∃ a, u = (u.reverse.dropWhile p).reverse ++ a := by
  refine ⟨(u.reverse.takeWhile p).reverse, ?_⟩
  have h := congrArg List.reverse (@List.takeWhile_append_dropWhile Char p u.reverse)
  rw [List.reverse_append, List.reverse_reverse] at h
  exact h.symm

theorem pyStrip_decomp (l : List Char) : ∃ b, l.dropWhile isWs = pyStrip l ++ b := by
  obtain ⟨b, hb⟩ := revDrop_decomp isWs (l.dropWhile isWs)
  exact ⟨b, hb⟩

theorem pyStrip_goodLtB (l : List Char) (h : goodLtB l = true) :
    goodLtB (pyStrip l) = true := by
  obtain ⟨a, ha⟩ := dropWhile_suffix_decomp isWs l
  have h1 : goodLtB (l.dropWhile isWs) = true := goodLtB_suffix a _ (by rw [← ha]; exact h)
  obtain ⟨b, hb⟩ := pyStrip_decomp l
  exact goodLtB_prefix _ b (by rw [← hb]; exact h1)

theorem pyStrip_wsNormB (l : List Char) (h : wsNormB l = true) :
    wsNormB (pyStrip l) = true := by
  obtain ⟨a, ha⟩ := dropWhile_suffix_decomp isWs l
  have h1 : wsNormB (l.dropWhile isWs) = true := wsNormB_suffix a _ (by rw [← ha]; exact h)
  obtain ⟨b, hb⟩ := pyStrip_decomp l
  exact wsNormB_prefix _ b (by rw [← hb]; exact h1)

theorem pyStrip_sublist (l : List Char) : List.Sublist (pyStrip l) l := by
  obtain ⟨a, ha⟩ := dropWhile_suffix_decomp isWs l
  obtain ⟨b, hb⟩ := pyStrip_decomp l
  have h1 : List.Sublist (pyStrip l) (l.dropWhile isWs) := by
    rw [hb]
    exact List.sublist_append_left _ _
  have h2 : List.Sublist (l.dropWhile isWs) l := by
    conv_rhs => rw [ha]
    exact List.sublist_append_right a _
  exact h1.trans h2

theorem pyStrip_head_ws_false (l : List Char) (c : Char)
    (h : (pyStrip l).head? = some c) : isWs c = false := by
  obtain ⟨b, hb⟩ := pyStrip_decomp l
  refine dropWhile_head?_not isWs l c ?_
  rw [hb]
  cases hr : pyStrip l with
  | nil => rw [hr] at h; exact Option.noConfusion h
  | cons x t =>
    rw [hr] at h
    rw [List.cons_append, List.head?_cons]
    rw [List.head?_cons] at h
    exact h

theorem pyStrip_idem (l : List Char) : pyStrip (pyStrip l) = pyStrip l := by
  have h1 : (pyStrip l).dropWhile isWs = pyStrip l :=
    dropWhile_eq_self_of_head _ _ (fun c hc => pyStrip_head_ws_false l c hc)
  have h2 : (pyStrip l).reverse.dropWhile isWs = (pyStrip l).reverse := by
    have h3 : (pyStrip l).reverse = ((l.dropWhile isWs).reverse).dropWhile isWs := by
      simp only [pyStrip, List.reverse_reverse]
    rw [h3, List.dropWhile_idempotent]
  show (((pyStrip l).dropWhile isWs).reverse.dropWhile isWs).reverse = pyStrip l
  rw [h1, h2, List.reverse_reverse]

theorem collapse_strip_idem (x : List Char) :
    pyStrip (collapseWS (pyStrip (collapseWS x))) = pyStrip (collapseWS x) := by
  have hn : wsNormB (collapseWS x) = true := (collapseAux_wsNormB x).1 false
  have hy : wsNormB (pyStrip (collapseWS x)) = true := pyStrip_wsNormB _ hn
  have hfix : collapseWS (pyStrip (collapseWS x)) = pyStrip (collapseWS x) :=
    (wsNormB_fixpoint _ hy).1
  rw [hfix, pyStrip_idem]

theorem clean_text_no_amp (l : List Char) (h : '&' ∉ l) :
    clean_text l = pyStrip (collapseWS (stripTags l)) := by
  rw [clean_text, unescape_of_no_amp (stripTags l) (fun hm => h (stripTags_subset hm))]

theorem clean_text_goodLtB (l : List Char) (h : '&' ∉ l) :
    goodLtB (clean_text l) = true := by
  rw [clean_text_no_amp l h]
  exact pyStrip_goodLtB _ (collapseAux_goodLtB _ (stripTags_goodLtB l) false)

theorem amp_not_mem_clean_text (l : List Char) (h : '&' ∉ l) : '&' ∉ clean_text l := by
  rw [clean_text_no_amp l h]
  intro hm
  have h1 := (pyStrip_sublist _).subset hm
  rcases collapseAux_mem _ false _ h1 with h2 | h2
  · exact absurd h2 (by decide)
  · exact h (stripTags_subset h2)

/-- The string contains a substring matching the markup-tag shape
`<[^>]+>`: some decomposition `pre ++ '<' :: mid ++ '>' :: post` with a
nonempty, '>'-free `mid`. -/
def hasTagMatch (l : List Char) : Prop :=
  ∃ pre mid post : List Char,
    l = pre ++ '<' :: (mid ++ '>' :: post) ∧ mid ≠ [] ∧ '>' ∉ mid

theorem goodLtB_no_tagMatch (l : List Char) (h : goodLtB l = true) : ¬ hasTagMatch l := by
  rintro ⟨pre, mid, post, heq, hmid, hgt⟩
  have h1 : goodLtB ('<' :: (mid ++ '>' :: post)) = true :=
    goodLtB_suffix pre _ (by rw [← heq]; exact h)
  rw [goodLtB_cons, Bool.and_eq_true, if_pos rfl] at h1
  rcases (ltCondB_iff _).mp h1.1 with h2 | h2
  · cases mid with
    | nil => exact hmid rfl
    | cons m r =>
      rw [List.cons_append, List.head?_cons, Option.some.injEq] at h2
      exact hgt (List.mem_cons.mpr (Or.inl h2.symm))
  · exact h2 (List.mem_append_right mid (List.mem_cons_self '>' post))

/-- C3 (amended): `clean_text` is idempotent on every input that contains no
'&' character.  (Entity decoding happens after tag stripping, so decoded
entities can create new tag-shaped spans that only a second application
removes; without '&' no entity can decode.) -/
theorem clean_text_idempotent_no_amp (l : List Char) (h : '&' ∉ l) :
    clean_text (clean_text l) = clean_text l := by
  have hstrip : stripTags (clean_text l) = clean_text l :=
    goodLtB_fixpoint _ (clean_text_goodLtB l h)
  have hamp : '&' ∉ clean_text l := amp_not_mem_clean_text l h
  have houter : clean_text (clean_text l) =
      pyStrip (collapseWS (unescape (stripTags (clean_text l)))) := rfl
  rw [houter, hstrip, unescape_of_no_amp _ hamp, clean_text_no_amp l h]
  exact collapse_strip_idem (stripTags l)

theorem clean_text_idempotent_no_amp_witness :
    '&' ∉ ['a', ' ', ' ', 'b', '\n'] ∧
      clean_text (clean_text ['a', ' ', ' ', 'b', '\n']) = clean_text ['a', ' ', ' ', 'b', '\n'] :=
  ⟨by decide, clean_text_idempotent_no_amp ['a', ' ', ' ', 'b', '\n'] (by decide)⟩

/-- The concrete input `"&lt;x&gt;"` on which `clean_text` is not idempotent
and whose cleaned output contains a tag-shaped span. -/
def entityEx : List Char := ['&', 'l', 't', ';', 'x', '&', 'g', 't', ';']

theorem unescape_entityEx : unescape entityEx = ['<', 'x', '>'] := by
  show unescape ('&' :: ['l', 't', ';', 'x', '&', 'g', 't', ';']) = ['<', 'x', '>']
  rw [unescape_amp_some ['l', 't', ';', 'x', '&', 'g', 't', ';'] '<' ['x', '&', 'g', 't', ';']
    (by decide)]
  rw [unescape_cons_ne 'x' ['&', 'g', 't', ';'] (by decide)]
  rw [unescape_amp_some ['g', 't', ';'] '>' [] (by decide), unescape_nil]

theorem clean_text_entityEx : clean_text entityEx = ['<', 'x', '>'] := by
  show pyStrip (collapseWS (unescape (stripTags entityEx))) = ['<', 'x', '>']
  rw [stripTags_of_no_lt entityEx (by decide), unescape_entityEx]
  decide

theorem clean_text_tag_xy : clean_text ['<', 'x', '>'] = [] := by
  show pyStrip (collapseWS (unescape (stripTags ('<' :: ['x', '>'])))) = []
  rw [stripTags_lt_some ['x', '>'] [] (by decide), stripTags_nil, unescape_nil]
  decide

/-- C3 (counterexample): on the input `"&lt;x&gt;"` a second application of
`clean_text` changes the result (`"<x>"` becomes `""`), so `clean_text` is
not idempotent as claimed. -/
theorem clean_text_not_idempotent :
    clean_text (clean_text entityEx) ≠ clean_text entityEx := by
  rw [clean_text_entityEx, clean_text_tag_xy]
  decide

/-- C4 (amended): for every input containing no '&' character, the output of
`clean_text` contains no substring matching the markup-tag shape `<...>`.
Entities are decoded only after tag stripping, so inputs whose entities
decode to '<' and '>' can reintroduce tag-shaped spans in the output. -/
theorem clean_text_no_tag_no_amp (l : List Char) (h : '&' ∉ l) :
    ¬ hasTagMatch (clean_text l) :=
  goodLtB_no_tagMatch _ (clean_text_goodLtB l h)

theorem clean_text_no_tag_no_amp_witness :
    '&' ∉ ['<', 'i', '>', 'h', 'i'] ∧ ¬ hasTagMatch (clean_text ['<', 'i', '>', 'h', 'i']) :=
  ⟨by decide, clean_text_no_tag_no_amp ['<', 'i', '>', 'h', 'i'] (by decide)⟩

/-- C4 (counterexample): cleaning `"&lt;x&gt;"` yields `"<x>"`, which does
contain a substring matching the markup-tag shape `<...>`. -/
theorem clean_text_emits_tag_span : hasTagMatch (clean_text entityEx) := by
  rw [clean_text_entityEx]
  exact ⟨[], ['x'], [], rfl, by decide, by decide⟩

theorem collapseAux_no_ws : ∀ (l : List Char), (∀ c ∈ l, isWs c = false) →
    collapseAux false l = l := by
  intro l
  induction l with
  | nil => intro _; rfl
  | cons c rest ih =>
    intro h
    rw [collapseAux_not_ws false c rest (h c (List.mem_cons_self c rest))]
    rw [ih (fun x hx => h x (List.mem_cons_of_mem c hx))]

theorem pyStrip_no_ws (l : List Char) (h : ∀ c ∈ l, isWs c = false) : pyStrip l = l := by
  have h1 : l.dropWhile isWs = l := by
    refine dropWhile_eq_self_of_head isWs l (fun c hc => ?_)
    cases l with
    | nil => exact Option.noConfusion hc
    | cons x r =>
      rw [List.head?_cons, Option.some.injEq] at hc
      exact hc ▸ h x (List.mem_cons_self x r)
  have h2 : l.reverse.dropWhile isWs = l.reverse := by
    refine dropWhile_eq_self_of_head isWs l.reverse (fun c hc => ?_)
    cases hr : l.reverse with
    | nil => rw [hr] at hc; exact Option.noConfusion hc
    | cons x r =>
      rw [hr, List.head?_cons, Option.some.injEq] at hc
      refine hc ▸ h x ?_
      have : x ∈ l.reverse := by rw [hr]; exact List.mem_cons_self x r
      exact List.mem_reverse.mp this
  rw [pyStrip, h1, h2, List.reverse_reverse]

/-- On text with no markup, no ampersand and no whitespace, `clean_text` is
the identity. -/
theorem clean_text_plain (l : List Char)
    (h : ∀ c ∈ l, c ≠ '<' ∧ c ≠ '&' ∧ isWs c = false) : clean_text l = l := by
  rw [clean_text, stripTags_of_no_lt l (fun hm => (h _ hm).1 rfl),
    unescape_of_no_amp l (fun hm => (h _ hm).2.1 rfl), collapseWS,
    collapseAux_no_ws l (fun c hc => (h c hc).2.2),
    pyStrip_no_ws l (fun c hc => (h c hc).2.2)]

/-! ## Data model: articles, subscriptions and the feed-provider oracle -/

/-- One parsed entry of the feed provider's `entries.json` response; a JSON
key the provider omitted is `none` (the code reads keys with
`article.get(key, default)`). -/
structure Entry where
  title : Option String
  url : Option String
  summary : Option String
  content : Option String
  published : Option String
  feed_id : Option Nat
deriving DecidableEq

/-- One parsed entry of `subscriptions.json`. -/
structure Subscription where
  feed_id : Option Nat
  title : Option String
  site_url : Option String
deriving DecidableEq

/-- A formatted article as produced by `fetch_recent_articles`
(lines 124-133): all fields defaulted to strings, feed name resolved. -/
structure Article where
  title : String
  url : String
  summary : String
  content : String
  published : String
  feed_name : String
deriving DecidableEq

/-- An HTTP request issued by the fetcher: `GET subscriptions.json`, or
`GET entries.json` with an optional `since` time filter and a `per_page`
page size. -/
inductive Req where
  | subscriptions : Req
  | entries (since : Option String) (per_page : Nat) : Req
deriving DecidableEq

/-- The feed provider's responses for one run: HTTP status and parsed JSON
body for each of the four requests `fetch_recent_articles` can issue.  The
subscriptions response is served unchanged to every request for it,
including the per-article `get_feed_name` lookups. -/
structure FetchOracle where
  subsStatus : Nat
  subs : List Subscription
  probeStatus : Nat
  probe : List Entry
  filteredStatus : Nat
  filtered : List Entry
  fallbackStatus : Nat
  fallback : List Entry
deriving DecidableEq

/-- `get_feed_name` (lines 138-155): re-fetch the whole subscription list
and scan it for the first entry whose `feed_id` matches.  Python's
`if not feed_id` treats a missing id and the integer 0 as falsy, answering
"Unknown Feed" without any request.  Returns the name and the request trace
of this call. -/
def get_feed_name (o : FetchOracle) (feed_id : Option Nat) : String × List Req :=
  match feed_id with
  | none => ("Unknown Feed", [])
  | some fid =>
    if fid = 0 then ("Unknown Feed", [])
    else if o.subsStatus = 200 then
      match o.subs.find? (fun f => f.feed_id == some fid) with
      | some f => (f.title.getD "Unknown Feed", [Req.subscriptions])
      | none => ("Unknown Feed", [Req.subscriptions])
    else ("Unknown Feed", [Req.subscriptions])

/-- The formatting loop body of `fetch_recent_articles` (lines 124-133). -/
def formatArticle (o : FetchOracle) (e : Entry) : Article :=
  { title := e.title.getD "No Title"
    url := e.url.getD ""
    summary := e.summary.getD ""
    content := e.content.getD ""
    published := e.published.getD ""
    feed_name := (get_feed_name o e.feed_id).1 }

/-- `fetch_recent_articles` (lines 40-136).  In order: a subscriptions
request (authentication test), an unfiltered probe for entries
(`per_page=10`), the time-filtered primary request (`since`, `per_page=50`),
and — only when the filtered request succeeds with zero entries — one
unfiltered fallback request (`per_page=20`) whose body replaces the empty
result when it returns 200.  A non-200 status on any of the first three
requests aborts with an empty list.  Formatting resolves each entry's feed
name via `get_feed_name`.  Returns the formatted articles and the request
trace. -/
def fetch_recent_articles (o : FetchOracle) (since_param : String) :
    List Article × List Req :=
  if o.subsStatus ≠ 200 then ([], [Req.subscriptions])
  else if o.probeStatus ≠ 200 then ([], [Req.subscriptions, Req.entries none 10])
  else if o.filteredStatus ≠ 200 then
    ([], [Req.subscriptions, Req.entries none 10, Req.entries (some since_param) 50])
  else
    let pair :=
      if o.filtered = [] then
        if o.fallbackStatus = 200 then (o.fallback, [Req.entries none 20])
        else (o.filtered, [Req.entries none 20])
      else (o.filtered, [])
    (pair.1.map (formatArticle o),
      [Req.subscriptions, Req.entries none 10, Req.entries (some since_param) 50]
        ++ pair.2 ++ pair.1.flatMap (fun e => (get_feed_name o e.feed_id).2))

/-! ## Summarizer -/

/-- The text-generation API's response for the single request of a run. -/
structure GenOracle where
  status : Nat
  content : String
deriving DecidableEq

/-- The apostrophe character (several source string literals contain it). -/
def apos : Char := Char.ofNat 39

/-- `article['summary'] or article['content']` (line 277): Python `or`
falls back to `content` when `summary` is the empty string. -/
def pickBody (a : Article) : String := if a.summary = "" then a.content else a.summary

/-- The cleaned body of one article as computed at line 277. -/
def cleanBody (a : Article) : List Char := clean_text (pickBody a).data

/-- Truncation of a cleaned body (lines 279-280): strictly more than 500
characters is cut to the first 500 plus the ellipsis marker `"..."`. -/
def truncBody (l : List Char) : List Char :=
  if l.length > 500 then l.take 500 ++ ['.', '.', '.'] else l

/-- One numbered article block of the prompt (lines 282-289). -/
def articleBlock (i : Nat) (a : Article) : List Char :=
  ("\nArticle " ++ toString i ++ ":\nTitle: " ++ a.title ++ "\nSource: " ++ a.feed_name
      ++ "\nSummary: ").data
    ++ truncBody (cleanBody a)
    ++ ("\nURL: " ++ a.url ++ "\n\n").data

/-- The numbered article blocks assembled into the prompt (line 276):
`enumerate(articles[:20], 1)` caps the input at the first 20 articles and
numbers the blocks from 1. -/
def articleBlocks (articles : List Article) : List (List Char) :=
  (articles.take 20).mapIdx (fun i a => articleBlock (i + 1) a)

/-- `articles_text` (lines 275-289): concatenation of the numbered blocks. -/
def articles_text (articles : List Article) : List Char := (articleBlocks articles).flatten

/-- The fixed instructive text before the article blocks (lines 292-303). -/
def promptIntro : List Char :=
  ("Please create a concise daily news summary from the following articles. \n\n"
      ++ "Format the summary as follows:\n1. Start with a brief overview paragraph\n"
      ++ "2. Group similar stories together\n3. For each story/topic, provide:\n"
      ++ "   - A clear headline\n   - A 2-3 sentence summary\n   - Key sources mentioned\n"
      ++ "4. End with any notable trends or patterns\n\nHere are today").data
    ++ [apos] ++ "s articles:\n".data

/-- The fixed instructive text after the article blocks (line 306). -/
def promptOutro : List Char :=
  ("\n\nPlease focus on the most important and interesting stories, "
      ++ "and make the summary engaging and easy to read.").data

/-- The single prompt sent to the generation API (lines 292-306). -/
def summarizer_prompt (articles : List Article) : List Char :=
  promptIntro ++ articles_text articles ++ promptOutro

/-- `summarize_with_chatgpt` (lines 268-350): an empty article list
short-circuits to a fixed placeholder string with no request; otherwise one
generation request is issued and a non-200 status degrades to a fallback
string reporting only the article count.  Returns the digest together with
the number of generation-API requests issued. -/
def summarize_with_chatgpt (g : GenOracle) (articles : List Article) : String × Nat :=
  if articles = [] then ("No new articles found in the specified time period.", 0)
  else if g.status ≠ 200 then
    ("Error generating summary. Found " ++ toString articles.length ++ " articles.", 1)
  else (g.content, 1)

/-! ## Digest delivery (`send_email`, lines 352-385) -/

/-- The step of the mail-submission session at which a transport or
authentication error is raised, if any. -/
inductive FailStep where
  | connect : FailStep
  | starttls : FailStep
  | login : FailStep
  | send : FailStep
deriving DecidableEq

/-- Observable state of the mail-submission session: whether a network
connection is open and whether the message was submitted. -/
structure MailState where
  connOpen : Bool
  msgSent : Bool
deriving DecidableEq

/-- `smtplib.SMTP(host, port)` (line 378): establishes the connection; on
failure no connection exists. -/
def smtpConnect (f : Option FailStep) (st : MailState) : Except MailState MailState :=
  if f = some FailStep.connect then Except.error st
  else Except.ok { st with connOpen := true }

/-- `server.starttls()` (line 379): on failure the error propagates with
the connection open. -/
def smtpStarttls (f : Option FailStep) (st : MailState) : Except MailState MailState :=
  if f = some FailStep.starttls then Except.error st else Except.ok st

/-- `server.login(...)` (line 380). -/
def smtpLogin (f : Option FailStep) (st : MailState) : Except MailState MailState :=
  if f = some FailStep.login then Except.error st else Except.ok st

/-- `server.send_message(msg)` (line 381). -/
def smtpSend (f : Option FailStep) (st : MailState) : Except MailState MailState :=
  if f = some FailStep.send then Except.error st else Except.ok { st with msgSent := true }

/-- `server.quit()` (line 382): closes the connection. -/
def smtpQuit (st : MailState) : Except MailState MailState :=
  Except.ok { st with connOpen := false }

/-- `send_email` (lines 352-385): the session steps run inside a single
`try`; the `except` arm (lines 384-385) only prints, so the function
returns with the session state exactly as it was when the error was raised.
There is no `finally` and no close call on the failure path. -/
def send_email (f : Option FailStep) : MailState :=
  let run : Except MailState MailState := do
    let st ← smtpConnect f ⟨false, false⟩
    let st ← smtpStarttls f st
    let st ← smtpLogin f st
    let st ← smtpSend f st
    smtpQuit st
  match run with
  | Except.ok st => st
  | Except.error st => st

/-- Subject line composed at line 359. -/
def subject_line (dateStr : String) (article_count : Nat) : String :=
  "Daily News Summary - " ++ dateStr ++ " (" ++ toString article_count ++ " articles)"

/-- Email body composed at lines 362-372. -/
def email_body (summary : String) (article_count : Nat) (genTime : String) : List Char :=
  "\nGood morning!\n\nHere".data ++ [apos]
    ++ "s your daily news summary based on ".data ++ (toString article_count).data
    ++ " articles from your Feedbin subscriptions:\n\n".data ++ summary.data
    ++ "\n\n---\nThis summary was automatically generated from your Feedbin feeds.\nGenerated on ".data
    ++ genTime.data ++ "\n        ".data

/-! ## Pipeline driver (`run_daily_summary`, lines 387-411) -/

/-- Number of positional parameters of `send_email` after `self`
(line 352: `summary`, `article_count`). -/
def send_email_param_count : Nat := 2

/-- Number of positional arguments at the zero-article call site (line 397:
`send_email("No new articles found in your feeds today.", 0, [])`). -/
def zero_branch_arg_count : Nat := 3

/-- Outcome of one run: an email was composed and handed to delivery, or a
Python `TypeError` was raised. -/
inductive RunResult where
  | emailSent (subject : String) (body : List Char) : RunResult
  | typeError : RunResult
deriving DecidableEq

/-- `run_daily_summary` (lines 387-411): fetch, then either the zero-article
notification branch or summarize-and-send.  The zero-article branch invokes
`send_email` with three positional arguments although it has two parameters,
which raises `TypeError` at the call site before any email is composed. -/
def run_daily_summary (o : FetchOracle) (g : GenOracle) (dateStr since_param : String) :
    RunResult :=
  let articles := (fetch_recent_articles o since_param).1
  if articles = [] then
    if zero_branch_arg_count = send_email_param_count then
      RunResult.emailSent (subject_line dateStr 0)
        (email_body "No new articles found in your feeds today." 0 dateStr)
    else RunResult.typeError
  else
    RunResult.emailSent (subject_line dateStr articles.length)
      (email_body (summarize_with_chatgpt g articles).1 articles.length dateStr)

/-! ## Configuration check (`main`, lines 413-433) -/

/-- The environment variables `main` requires (lines 416-419).  `SMTP_SERVER`
and `SMTP_PORT` are not among them: the constructor reads them with the
defaults `smtp.gmail.com` and `587` (lines 26-27). -/
def required_vars : List String :=
  ["FEEDBIN_EMAIL", "FEEDBIN_PASSWORD", "OPENAI_API_KEY",
   "EMAIL_USER", "EMAIL_PASSWORD", "RECIPIENT_EMAIL"]

/-- A process environment: variable-name/value pairs. -/
def Env : Type := List (String × String)

/-- `os.getenv`: the value of the first binding of `k`, if any. -/
def getenv (env : Env) (k : String) : Option String :=
  (List.find? (fun p => p.1 == k) env).map (fun p => p.2)

/-- `not os.getenv(var)` (line 421): true when the variable is unset or
bound to the empty string (both are falsy in Python). -/
def envUnset (env : Env) (k : String) : Bool :=
  match getenv env k with
  | none => true
  | some v => v == ""

/-- `missing_vars` (line 421). -/
def missing_vars (env : Env) : List String :=
  required_vars.filter (fun v => envUnset env v)

/-- The SMTP host as the constructor reads it (line 26). -/
def smtp_server (env : Env) : String := (getenv env "SMTP_SERVER").getD "smtp.gmail.com"

/-- The SMTP port as the constructor reads it (line 27). -/
def smtp_port (env : Env) : String := (getenv env "SMTP_PORT").getD "587"

/-- Outcome of `main`: aborted with the reported missing names, or ran the
pipeline with the configured lookback window. -/
inductive MainResult where
  | aborted (missing : List String) : MainResult
  | ran (hours_back : Nat) : MainResult
deriving DecidableEq

/-- `main` (lines 413-433): if any required variable is unset, print the
missing names and return before any network activity; otherwise run the
pipeline with `hours_back=168`.  (Named `main_check` because Lean reserves
`main` for programs.) -/
def main_check (env : Env) : MainResult :=
  if missing_vars env ≠ [] then MainResult.aborted (missing_vars env)
  else MainResult.ran 168

/-- C1 (code evaluated at the failing input): in every run where fetching
yields zero articles, `run_daily_summary` raises `TypeError` instead of
completing — the zero-article branch (line 397) passes three positional
arguments to `send_email`, which has two parameters (line 352) — so no
notification email with a "(0 articles)" subject is ever sent. -/
theorem run_daily_summary_zero_articles_type_error
    (o : FetchOracle) (g : GenOracle) (dateStr since_param : String)
    (h : (fetch_recent_articles o since_param).1 = []) :
    run_daily_summary o g dateStr since_param = RunResult.typeError ∧
      ∀ subject body,
        run_daily_summary o g dateStr since_param ≠ RunResult.emailSent subject body := by
  have h1 : run_daily_summary o g dateStr since_param = RunResult.typeError := by
    rw [run_daily_summary]
    simp only [h]
    rfl
  exact ⟨h1, fun subject body hcon => by rw [h1] at hcon; exact RunResult.noConfusion hcon⟩

/-- A concrete entry used by witness runs. -/
def entryFallback : Entry :=
  { title := some "Big news", url := some "http://example.com/a",
    summary := some "body", content := none,
    published := some "2025-06-01T00:00:00Z", feed_id := some 3 }

/-- An oracle whose subscriptions request fails authentication, so the
fetcher returns zero articles. -/
def oracleAuthFail : FetchOracle :=
  { subsStatus := 401, subs := [], probeStatus := 200, probe := [entryFallback],
    filteredStatus := 200, filtered := [entryFallback], fallbackStatus := 200,
    fallback := [entryFallback] }

/-- A generation oracle that would answer successfully. -/
def genOK : GenOracle := { status := 200, content := "digest text" }

theorem run_daily_summary_zero_articles_type_error_witness :
    run_daily_summary oracleAuthFail genOK "June 01, 2025" "2025-05-25T00:00:00Z" =
      RunResult.typeError :=
  (run_daily_summary_zero_articles_type_error oracleAuthFail genOK
    "June 01, 2025" "2025-05-25T00:00:00Z" rfl).1

/-- C2 (counterexample): a login failure is caught by the bare `except` arm
and `send_email` returns with the connection still open — the failure path
leaks the mail-submission session. -/
theorem send_email_login_leaks : (send_email (some FailStep.login)).connOpen = true := rfl

/-- C2 (amended): the session is closed before `send_email` returns on the
success path, and no connection exists when establishing it fails; but a
failure raised in STARTTLS, login or message submission is swallowed with
the connection left open.  The message is submitted exactly when no step
fails, and no exception escapes (`send_email` is total). -/
theorem send_email_session_lifecycle (f : Option FailStep) :
    ((send_email f).connOpen = false ↔ (f = none ∨ f = some FailStep.connect)) ∧
      ((send_email f).msgSent = true ↔ f = none) := by
  cases f with
  | none => exact ⟨by decide, by decide⟩
  | some s => cases s <;> exact ⟨by decide, by decide⟩

/-- An environment with the six checked variables set and nothing else. -/
def envSixSet : Env :=
  [("FEEDBIN_EMAIL", "a"), ("FEEDBIN_PASSWORD", "b"), ("OPENAI_API_KEY", "c"),
   ("EMAIL_USER", "d"), ("EMAIL_PASSWORD", "e"), ("RECIPIENT_EMAIL", "f")]

/-- C5 (counterexample): with the six checked variables set but the mail
host and mail port entirely unset, `main` proceeds to run the pipeline
instead of aborting: the startup check does not cover `SMTP_SERVER` or
`SMTP_PORT`; the constructor silently falls back to their defaults. -/
theorem main_check_ignores_smtp_settings :
    getenv envSixSet "SMTP_SERVER" = none ∧ getenv envSixSet "SMTP_PORT" = none ∧
      smtp_server envSixSet = "smtp.gmail.com" ∧ smtp_port envSixSet = "587" ∧
      main_check envSixSet = MainResult.ran 168 :=
  ⟨by decide, by decide, by decide, by decide, by decide⟩

/-- C5 (amended): before any network activity `main` checks exactly the six
settings in `required_vars` (feed email and password, generation API key,
mail user, mail password, recipient); if any of them is unset or empty it
aborts reporting exactly the missing ones, and it runs the pipeline
otherwise.  Mail host and port are read with defaults and never checked. -/
theorem main_check_env_validation (env : Env) :
    ((∃ v ∈ required_vars, envUnset env v = true) →
        main_check env = MainResult.aborted (missing_vars env)) ∧
      ((∀ v ∈ required_vars, envUnset env v = false) →
        main_check env = MainResult.ran 168) ∧
      (∀ v, v ∈ missing_vars env ↔ (v ∈ required_vars ∧ envUnset env v = true)) := by
  refine ⟨?_, ?_, ?_⟩
  · rintro ⟨v, hv, hunset⟩
    have hne : missing_vars env ≠ [] := by
      intro hnil
      have hmem : v ∈ missing_vars env := List.mem_filter.mpr ⟨hv, hunset⟩
      rw [hnil] at hmem
      cases hmem
    rw [main_check, if_pos hne]
  · intro hall
    have hnil : missing_vars env = [] := by
      rw [missing_vars, List.filter_eq_nil_iff]
      intro v hv
      rw [hall v hv]
      exact Bool.false_ne_true
    rw [main_check, if_neg (fun hcon => hcon hnil)]
  · intro v
    exact List.mem_filter

/-- An environment missing most required settings (and with an empty string
for the API key, which Python also treats as unset). -/
def envPartial : Env := [("FEEDBIN_EMAIL", "user@example.com"), ("OPENAI_API_KEY", "")]

theorem main_check_env_validation_witness :
    main_check envPartial = MainResult.aborted (missing_vars envPartial) :=
  (main_check_env_validation envPartial).1 ⟨"FEEDBIN_PASSWORD", by decide, by decide⟩

/-- C6: with an empty article list, `summarize_with_chatgpt` returns the
fixed placeholder string and issues zero generation-API requests, whatever
the generation API would have answered. -/
theorem summarize_empty_placeholder (g : GenOracle) :
    summarize_with_chatgpt g [] =
      ("No new articles found in the specified time period.", 0) := rfl

/-- C7: for every non-empty article list the assembled prompt contains at
most 20 numbered article blocks — exactly `min length 20` of them — the
blocks (and hence the whole prompt) coincide with those of the list
truncated to its first 20 articles, and exactly one generation request is
issued regardless of how many articles were supplied (no batching). -/
theorem summarizer_caps_at_20 (articles : List Article) (h : articles ≠ []) :
    (articleBlocks articles).length ≤ 20 ∧
      (articleBlocks articles).length = min articles.length 20 ∧
      articleBlocks articles = articleBlocks (articles.take 20) ∧
      summarizer_prompt articles = summarizer_prompt (articles.take 20) ∧
      (∀ g : GenOracle, (summarize_with_chatgpt g articles).2 = 1) := by
  have hblocks : articleBlocks articles = articleBlocks (articles.take 20) := by
    rw [articleBlocks, articleBlocks, List.take_take, Nat.min_self]
  refine ⟨?_, ?_, hblocks, ?_, ?_⟩
  · rw [articleBlocks, List.length_mapIdx, List.length_take]
    omega
  · rw [articleBlocks, List.length_mapIdx, List.length_take]
    omega
  · rw [summarizer_prompt, summarizer_prompt, articles_text, articles_text, hblocks]
  · intro g
    rw [summarize_with_chatgpt, if_neg h]
    by_cases hg : g.status ≠ 200
    · rw [if_pos hg]
    · rw [if_neg hg]

/-- A concrete article used in witness runs. -/
def dummyArticle : Article :=
  { title := "T", url := "http://u", summary := "S", content := "C",
    published := "P", feed_name := "F" }

theorem summarizer_caps_at_20_witness :
    (articleBlocks (List.replicate 21 dummyArticle)).length ≤ 20 :=
  (summarizer_caps_at_20 (List.replicate 21 dummyArticle) (by decide)).1

/-- C8: whenever an article's cleaned body exceeds 500 characters, the body
embedded in its prompt block is exactly the first 500 characters followed by
the ellipsis marker `"..."`; its length is then 503, and no article's
embedded body ever exceeds 503 characters. -/
theorem summarizer_truncates_long_bodies (a : Article) (h : 500 < (cleanBody a).length) :
    truncBody (cleanBody a) = (cleanBody a).take 500 ++ ['.', '.', '.'] ∧
      (truncBody (cleanBody a)).length = 503 ∧
      (∀ b : Article, (truncBody (cleanBody b)).length ≤ 503) := by
  have he : truncBody (cleanBody a) = (cleanBody a).take 500 ++ ['.', '.', '.'] := by
    rw [truncBody, if_pos (by omega)]
  refine ⟨he, ?_, ?_⟩
  · rw [he, List.length_append, List.length_take]
    simp only [List.length_cons, List.length_nil]
    omega
  · intro b
    rw [truncBody]
    split
    next hb =>
      rw [List.length_append, List.length_take]
      simp only [List.length_cons, List.length_nil]
      omega
    next hb => omega

/-- An article whose cleaned body has 501 characters. -/
def longArticle : Article :=
  { title := "T", url := "U", summary := String.mk (List.replicate 501 'a'),
    content := "", published := "", feed_name := "F" }

theorem longArticle_cleanBody : cleanBody longArticle = List.replicate 501 'a' := by
  have hne : ¬ longArticle.summary = "" := by decide
  have h1 : pickBody longArticle = String.mk (List.replicate 501 'a') := by
    rw [pickBody, if_neg hne]
    rfl
  rw [cleanBody, h1]
  show clean_text (List.replicate 501 'a') = List.replicate 501 'a'
  refine clean_text_plain _ (fun c hc => ?_)
  have hca := List.eq_of_mem_replicate hc
  subst hca
  exact ⟨by decide, by decide, by decide⟩

theorem summarizer_truncates_long_bodies_witness :
    truncBody (cleanBody longArticle) =
      (cleanBody longArticle).take 500 ++ ['.', '.', '.'] :=
  (summarizer_truncates_long_bodies longArticle
    (by rw [longArticle_cleanBody]; decide)).1

/-- Recognizer for entries requests carrying no `since` time filter. -/
def isUnfilteredEntries : Req → Bool
  | Req.entries none _ => true
  | _ => false

theorem get_feed_name_reqs_subs (o : FetchOracle) (fid : Option Nat) :
    ∀ r ∈ (get_feed_name o fid).2, r = Req.subscriptions := by
  intro r hr
  cases fid with
  | none => cases hr
  | some n =>
    rw [get_feed_name] at hr
    by_cases hn : n = 0
    · rw [if_pos hn] at hr
      cases hr
    · rw [if_neg hn] at hr
      by_cases hs : o.subsStatus = 200
      · rw [if_pos hs] at hr
        rcases hfind : o.subs.find? (fun f => f.feed_id == some n) with _ | f
        · rw [hfind] at hr
          simpa using hr
        · rw [hfind] at hr
          simpa using hr
      · rw [if_neg hs] at hr
        simpa using hr

/-- C9: when the time-filtered entries request succeeds with zero entries,
the fetcher issues exactly one further entries request without the time
filter (the `per_page=20` fallback, immediately after the filtered request),
and when that fallback answers 200 with a non-empty body the fetcher returns
the formatted fallback entries rather than an empty list. -/
theorem fetch_fallback_on_empty_filtered (o : FetchOracle) (since_param : String)
    (hs : o.subsStatus = 200) (hp : o.probeStatus = 200) (hf : o.filteredStatus = 200)
    (he : o.filtered = []) (hb : o.fallbackStatus = 200) (hne : o.fallback ≠ []) :
    (fetch_recent_articles o since_param).1 = o.fallback.map (formatArticle o) ∧
      (fetch_recent_articles o since_param).1 ≠ [] ∧
      (fetch_recent_articles o since_param).2.take 4 =
        [Req.subscriptions, Req.entries none 10, Req.entries (some since_param) 50,
          Req.entries none 20] ∧
      List.countP isUnfilteredEntries ((fetch_recent_articles o since_param).2.drop 3) = 1 := by
  have hfr : fetch_recent_articles o since_param =
      (o.fallback.map (formatArticle o),
        [Req.subscriptions, Req.entries none 10, Req.entries (some since_param) 50]
          ++ [Req.entries none 20]
          ++ o.fallback.flatMap (fun e => (get_feed_name o e.feed_id).2)) := by
    rw [fetch_recent_articles]
    rw [if_neg (fun hcon => hcon hs), if_neg (fun hcon => hcon hp),
      if_neg (fun hcon => hcon hf)]
    simp [he, hb]
  refine ⟨by rw [hfr], ?_, ?_, ?_⟩
  · rw [hfr]
    simp only [ne_eq, List.map_eq_nil_iff]
    exact hne
  · rw [hfr]
    simp
  · rw [hfr]
    simp only [List.append_assoc, List.cons_append, List.nil_append]
    rw [List.drop_succ_cons, List.drop_succ_cons, List.drop_succ_cons, List.drop_zero]
    rw [List.countP_cons]
    have hz : List.countP isUnfilteredEntries
        (o.fallback.flatMap (fun e => (get_feed_name o e.feed_id).2)) = 0 := by
      rw [List.countP_eq_zero]
      intro r hr
      rcases List.mem_flatMap.mp hr with ⟨e, _, hre⟩
      rw [get_feed_name_reqs_subs o e.feed_id r hre]
      decide
    rw [hz]
    decide

/-- The subscription record resolving feed 3 in witness runs. -/
def subFeed3 : Subscription :=
  { feed_id := some 3, title := some "Feed Three", site_url := some "http://f3" }

/-- An oracle whose filtered request succeeds with zero entries while the
unfiltered fallback has one entry. -/
def oracleFallback : FetchOracle :=
  { subsStatus := 200, subs := [subFeed3], probeStatus := 200, probe := [entryFallback],
    filteredStatus := 200, filtered := [], fallbackStatus := 200,
    fallback := [entryFallback] }

theorem fetch_fallback_on_empty_filtered_witness :
    (fetch_recent_articles oracleFallback "2025-05-31T00:00:00Z").1 =
      oracleFallback.fallback.map (formatArticle oracleFallback) :=
  (fetch_fallback_on_empty_filtered oracleFallback "2025-05-31T00:00:00Z"
    rfl rfl rfl rfl rfl (by decide)).1

/-- C10: the fetcher always issues the subscriptions request first and then
the unfiltered probe request, before the time-filtered primary request; a
non-success status on either of them makes it return an empty article list
without ever issuing the filtered request — even when the oracle would have
answered the filtered request with success and non-empty results. -/
theorem fetch_aborts_on_precheck_failure (o : FetchOracle) (since_param : String)
    (h : o.subsStatus ≠ 200 ∨ (o.subsStatus = 200 ∧ o.probeStatus ≠ 200)) :
    (fetch_recent_articles o since_param).1 = [] ∧
      Req.entries (some since_param) 50 ∉ (fetch_recent_articles o since_param).2 ∧
      (fetch_recent_articles o since_param).2.head? = some Req.subscriptions ∧
      (o.subsStatus = 200 →
        (fetch_recent_articles o since_param).2 =
          [Req.subscriptions, Req.entries none 10]) := by
  rcases h with h | ⟨hs, hp⟩
  · have hfr : fetch_recent_articles o since_param = ([], [Req.subscriptions]) := by
      rw [fetch_recent_articles, if_pos h]
    rw [hfr]
    exact ⟨rfl, by simp, rfl, fun hcon => absurd hcon h⟩
  · have hfr : fetch_recent_articles o since_param =
        ([], [Req.subscriptions, Req.entries none 10]) := by
      rw [fetch_recent_articles, if_neg (fun hcon => hcon hs), if_pos hp]
    rw [hfr]
    exact ⟨rfl, by simp, rfl, fun _ => rfl⟩

/-- An oracle whose subscriptions request fails while the filtered request
would have succeeded with a non-empty body. -/
def oraclePrecheckFail : FetchOracle :=
  { subsStatus := 500, subs := [], probeStatus := 200, probe := [entryFallback],
    filteredStatus := 200, filtered := [entryFallback], fallbackStatus := 200,
    fallback := [entryFallback] }

theorem fetch_aborts_on_precheck_failure_witness :
    (fetch_recent_articles oraclePrecheckFail "2025-05-31T00:00:00Z").1 = [] ∧
      oraclePrecheckFail.filteredStatus = 200 ∧ oraclePrecheckFail.filtered ≠ [] :=
  ⟨(fetch_aborts_on_precheck_failure oraclePrecheckFail "2025-05-31T00:00:00Z"
      (Or.inl (by decide))).1,
    rfl, by decide⟩
